import Mathlib

/-!
Verification of the Fibonacci circuit example (src/src/lib.rs) against its
specification.

The repository source is a halo2 circuit definition: a `FibChip` with three
advice columns, one instance column, one selector and a single gate
`s * (a + b - c)`, together with a test circuit `MyCircuit` whose
`synthesize` lays out a Fibonacci-style recurrence row by row and checks it
with a mock prover.

The halo2 circuit layer itself (columns, regions, copy constraints, the mock
verifier) is an external dependency whose code is not part of the
repository; those parts are modelled from the specification and marked
`Modelled from the spec:` below.  Everything in namespace `FibCircuit`
translated from `src/src/lib.rs` cites the corresponding Rust item.
-/

deriving instance DecidableEq for Except

namespace FibCircuit

/-- Modelled from the spec: polynomial expression tree for gates (spec §3
"Gate" and §9 "tagged variant over Constant/Query/Add/Sub/Mul").  A query
carries a column index; advice queries also carry a rotation (an `isize` in
halo2, hence `ℤ`). -/
inductive PolyExpr (F : Type) where
  | const : F → PolyExpr F
  | sel : ℕ → PolyExpr F
  | advQuery : ℕ → ℤ → PolyExpr F
  | add : PolyExpr F → PolyExpr F → PolyExpr F
  | sub : PolyExpr F → PolyExpr F → PolyExpr F
  | mul : PolyExpr F → PolyExpr F → PolyExpr F
deriving DecidableEq

/-- Modelled from the spec: a registered gate, `{ name, expressions }`.  The
`create_gate` builder in the source returns `vec![s * (a + b - c)]`, so a
gate holds the list of polynomials returned by its builder. -/
structure Gate (F : Type) where
  name : String
  polys : List (PolyExpr F)
deriving DecidableEq

/-- Modelled from the spec: the shape under construction (spec §3 "Shape",
§4.1).  Columns of each kind are identified by consecutive indices;
`eqAdvice` / `eqInstance` record the equality-enabled columns. -/
structure ConstraintSystem (F : Type) where
  numAdvice : ℕ := 0
  numInstance : ℕ := 0
  numSelectors : ℕ := 0
  eqAdvice : List ℕ := []
  eqInstance : List ℕ := []
  gates : List (Gate F) := []
deriving DecidableEq

/-- Modelled from the spec: `declare_column(Advice)` allocates the next free
advice index (spec §4.1). -/
def ConstraintSystem.adviceColumn (cs : ConstraintSystem F) : ConstraintSystem F × ℕ :=
  ({ cs with numAdvice := cs.numAdvice + 1 }, cs.numAdvice)

/-- Modelled from the spec: `declare_column(Instance)`. -/
def ConstraintSystem.instanceColumn (cs : ConstraintSystem F) : ConstraintSystem F × ℕ :=
  ({ cs with numInstance := cs.numInstance + 1 }, cs.numInstance)

/-- Modelled from the spec: `declare_column(Selector)` (`cs.selector()` in
halo2). -/
def ConstraintSystem.selector (cs : ConstraintSystem F) : ConstraintSystem F × ℕ :=
  ({ cs with numSelectors := cs.numSelectors + 1 }, cs.numSelectors)

/-- Modelled from the spec: `enable_equality` on an advice column, a
precondition for participating in copy constraints (spec §3, §4.1). -/
def ConstraintSystem.enableEquality (cs : ConstraintSystem F) (col : ℕ) : ConstraintSystem F :=
  { cs with eqAdvice := col :: cs.eqAdvice }

/-- Modelled from the spec: `enable_equality` on an instance column.  halo2
uses a single `enable_equality` over `Column<Any>`; the model splits it by
column kind because columns of different kinds live in different index
spaces. -/
def ConstraintSystem.enableEqualityInstance (cs : ConstraintSystem F) (col : ℕ) :
    ConstraintSystem F :=
  { cs with eqInstance := col :: cs.eqInstance }

/-- Modelled from the spec: `create_gate(name, builder)` appends a gate in
registration order (spec §4.1). -/
def ConstraintSystem.createGate (cs : ConstraintSystem F) (name : String)
    (polys : List (PolyExpr F)) : ConstraintSystem F :=
  { cs with gates := cs.gates ++ [⟨name, polys⟩] }

/-- The diagnostic label of the single gate registered by
`FibChip::configure` (src/src/lib.rs line 43). -/
def addGateName : String := "add"

/-- `FibConfig` from src/src/lib.rs lines 5-10: three advice columns, one
selector, one instance column.  (`instance` is a Lean keyword, hence
`instCol`.) -/
structure FibConfig where
  colA : ℕ
  colB : ℕ
  colC : ℕ
  sel : ℕ
  instCol : ℕ
deriving DecidableEq

/-- `FibChip::configure` from src/src/lib.rs lines 26-62: allocate the
selector, equality-enable the three advice columns and the instance column,
and register the single gate `"add"` with polynomial
`s * (a + b - c)` where `a`, `b`, `c` query the three advice columns at
`Rotation::cur()` (rotation `0`). -/
def FibChip.configure (advice : ℕ × ℕ × ℕ) (instCol : ℕ) (cs0 : ConstraintSystem F) :
    ConstraintSystem F × FibConfig :=
  let (colA, colB, colC) := advice
  let (cs1, s) := cs0.selector
  let cs2 := cs1.enableEquality colA
  let cs3 := cs2.enableEquality colB
  let cs4 := cs3.enableEquality colC
  let cs5 := cs4.enableEqualityInstance instCol
  let cs6 := cs5.createGate addGateName
    [.mul (.sel s) (.sub (.add (.advQuery colA 0) (.advQuery colB 0)) (.advQuery colC 0))]
  (cs6, ⟨colA, colB, colC, s, instCol⟩)

/-- `MyCircuit::configure` from src/src/lib.rs lines 169-176: allocate three
advice columns and one instance column, then delegate to
`FibChip::configure`. -/
def MyCircuit.configure (cs0 : ConstraintSystem F) : ConstraintSystem F × FibConfig :=
  let (cs1, colA) := cs0.adviceColumn
  let (cs2, colB) := cs1.adviceColumn
  let (cs3, colC) := cs2.adviceColumn
  let (cs4, instCol) := cs3.instanceColumn
  FibChip.configure (colA, colB, colC) instCol cs4

/-- The circuit struct from src/src/lib.rs lines 155-158
(`struct MyCircuit { fib_size: usize }`). -/
structure MyCircuit where
  fibSize : ℕ
deriving DecidableEq

/-- Rust `#[derive(Default)]` on `MyCircuit`: `usize` defaults to `0`. -/
def MyCircuit.deflt : MyCircuit := ⟨0⟩

/-- `MyCircuit::without_witnesses` from src/src/lib.rs lines 164-166:
`Self::default()`. -/
def MyCircuit.withoutWitnesses (_c : MyCircuit) : MyCircuit := MyCircuit.deflt

/-- Modelled from the spec: an assigned cell `{ column, row, value }`
(spec §3 "AssignedCell"); `none` is halo2's `Value::unknown()`. -/
structure AssignedCell (F : Type) where
  col : ℕ
  row : ℕ
  val : Option F
deriving DecidableEq

/-- Modelled from the spec: a copy constraint binding an instance cell
`(instCol, instRow)` to an advice cell `(advCol, advRow)` (spec §3
"CopyConstraint", implicit form). -/
structure InstBind where
  instCol : ℕ
  instRow : ℕ
  advCol : ℕ
  advRow : ℕ
deriving DecidableEq

/-- Modelled from the spec: the synthesis-time state — assignment log
(latest first), explicit advice-advice copy constraints, instance-advice
bindings, enabled selector positions, and the next free absolute row.
The floor planner places each (one-row) region at the next unused row
(spec §3 "Region": "each region occupies the next unused row(s)"). -/
structure SynthState (F : Type) where
  assigns : List (ℕ × ℕ × Option F) := []
  copies : List ((ℕ × ℕ) × (ℕ × ℕ)) := []
  instBinds : List InstBind := []
  selRows : List (ℕ × ℕ) := []
  nextRow : ℕ := 0
deriving DecidableEq

/-- Modelled from the spec: shape / synthesis errors (spec §7 taxonomy (a));
`usizeUnderflow` models a Rust debug-mode panic on `usize` subtraction
overflow, which likewise aborts the synthesis run. -/
inductive SynthError where
  | eqNotEnabled : SynthError
  | instanceOutOfRange : SynthError
  | usizeUnderflow : SynthError
deriving DecidableEq

/-- Modelled from the spec: `enable_selector(selector, row)` sets the
selector to 1 at the region's row (spec §4.2). -/
def enableSel (st : SynthState F) (s row : ℕ) : SynthState F :=
  { st with selRows := (s, row) :: st.selRows }

/-- Modelled from the spec: `assign_advice(column, row, value)` records the
result and returns the new cell (spec §4.2). -/
def assignAdvice (st : SynthState F) (col row : ℕ) (v : Option F) :
    SynthState F × AssignedCell F :=
  ({ st with assigns := (col, row, v) :: st.assigns }, ⟨col, row, v⟩)

/-- Modelled from the spec: `assign_advice_from_instance` copies a public
input value into an advice cell and records an implicit copy constraint
between the instance cell and the advice cell; it fails when the columns
are not equality-enabled, and too few public inputs is a configuration
error detected at synthesis time (spec §4.2, §6). -/
def assignAdviceFromInstance (cs : ConstraintSystem F) (inst : List (Option F))
    (st : SynthState F) (instCol instRow col row : ℕ) :
    Except SynthError (SynthState F × AssignedCell F) :=
  if instCol ∈ cs.eqInstance ∧ col ∈ cs.eqAdvice then
    match inst.get? instRow with
    | some v =>
        .ok ({ st with
                assigns := (col, row, v) :: st.assigns,
                instBinds := ⟨instCol, instRow, col, row⟩ :: st.instBinds },
             ⟨col, row, v⟩)
    | none => .error .instanceOutOfRange
  else .error .eqNotEnabled

/-- Modelled from the spec: `copy_advice(source, dest_column, row)` records
an explicit copy constraint between the source cell and the new cell and
assigns the new cell the same value; fails when either column is not
equality-enabled (spec §4.2). -/
def copyAdvice (cs : ConstraintSystem F) (st : SynthState F) (src : AssignedCell F)
    (col row : ℕ) : Except SynthError (SynthState F × AssignedCell F) :=
  if src.col ∈ cs.eqAdvice ∧ col ∈ cs.eqAdvice then
    .ok ({ st with
            assigns := (col, row, src.val) :: st.assigns,
            copies := ((src.col, src.row), (col, row)) :: st.copies },
         ⟨col, row, src.val⟩)
  else .error .eqNotEnabled

/-- `FibChip::assign_first_row` from src/src/lib.rs lines 64-110: open a
one-row region, enable the selector at its row, copy `instance[0]` into
advice column a and `instance[1]` into advice column b, and assign
column c the value `a.value().and_then(|a| b.value().and_then(|b| a + b))`.
The region occupies absolute row `st0.nextRow`; closing it advances the
cursor. -/
def FibChip.assignFirstRow {F : Type} [Add F] (cfg : FibConfig) (cs : ConstraintSystem F)
    (inst : List (Option F)) (st0 : SynthState F) :
    Except SynthError (SynthState F × (AssignedCell F × AssignedCell F × AssignedCell F)) :=
  let row := st0.nextRow
  let st1 := enableSel st0 cfg.sel row
  match assignAdviceFromInstance cs inst st1 cfg.instCol 0 cfg.colA row with
  | .error e => .error e
  | .ok (st2, aCell) =>
    match assignAdviceFromInstance cs inst st2 cfg.instCol 1 cfg.colB row with
    | .error e => .error e
    | .ok (st3, bCell) =>
      let cVal : Option F := aCell.val.bind fun a => bCell.val.bind fun b => some (a + b)
      let (st4, cCell) := assignAdvice st3 cfg.colC row cVal
      .ok ({ st4 with nextRow := row + 1 }, (aCell, bCell, cCell))

/-- `FibChip::assign_row` from src/src/lib.rs lines 112-136: open a one-row
region, enable the selector, `copy_advice` the cells `a` and `b` into
advice columns a and b of the new row, and assign column c the value
`a.value().and_then(|a| b.value().map(|b| a + b))`. -/
def FibChip.assignRow {F : Type} [Add F] (cfg : FibConfig) (cs : ConstraintSystem F)
    (st0 : SynthState F) (a b : AssignedCell F) :
    Except SynthError (SynthState F × AssignedCell F) :=
  let row := st0.nextRow
  let st1 := enableSel st0 cfg.sel row
  match copyAdvice cs st1 a cfg.colA row with
  | .error e => .error e
  | .ok (st2, _) =>
    match copyAdvice cs st2 b cfg.colB row with
    | .error e => .error e
    | .ok (st3, _) =>
      let cVal : Option F := a.val.bind fun x => b.val.map fun y => x + y
      let (st4, cCell) := assignAdvice st3 cfg.colC row cVal
      .ok ({ st4 with nextRow := row + 1 }, cCell)

/-- `FibChip::expose_public` from src/src/lib.rs lines 139-146:
`layouter.constrain_instance(cell, instance, row)` records an
instance-advice copy constraint.  `MyCircuit::synthesize` never calls it
(the call on line 198 is commented out). -/
def FibChip.exposePublic (cfg : FibConfig) (st : SynthState F) (cell : AssignedCell F)
    (row : ℕ) : SynthState F :=
  { st with instBinds := ⟨cfg.instCol, row, cell.col, cell.row⟩ :: st.instBinds }

/-- The `for _ in 3..=self.fib_size - 1` loop body of `MyCircuit::synthesize`
(src/src/lib.rs lines 190-194), iterated a fixed number of times:
`let new_c = chip.assign_row(.., &b, &c); b = c; c = new_c;`. -/
def MyCircuit.synthLoop {F : Type} [Add F] (cfg : FibConfig) (cs : ConstraintSystem F) :
    ℕ → SynthState F × AssignedCell F × AssignedCell F →
    Except SynthError (SynthState F × AssignedCell F × AssignedCell F)
  | 0, s => .ok s
  | k + 1, (st, b, c) =>
    match FibChip.assignRow cfg cs st b c with
    | .error e => .error e
    | .ok (st2, newC) => MyCircuit.synthLoop cfg cs k (st2, c, newC)

/-- `MyCircuit::synthesize` from src/src/lib.rs lines 179-201: assign the
first row, then run the recurrence loop `for _ in 3..=self.fib_size - 1`.
On a `usize`, `self.fib_size - 1` underflows when `fib_size = 0` (a Rust
debug-mode panic, modelled as `.error .usizeUnderflow`); for
`fib_size ≥ 1` the range `3..=fib_size-1` has `fib_size - 3` iterations
(truncated subtraction, empty for `fib_size ≤ 3`).  The final `c` cell is
returned alongside the state (the Rust code observes it via
`println!("c: {:?}", c.value())`). -/
def MyCircuit.synthesize {F : Type} [Add F] (cfg : FibConfig) (cs : ConstraintSystem F)
    (fibSize : ℕ) (inst : List (Option F)) (st0 : SynthState F) :
    Except SynthError (SynthState F × AssignedCell F) :=
  match FibChip.assignFirstRow cfg cs inst st0 with
  | .error e => .error e
  | .ok (st1, (_, b, c)) =>
    if fibSize = 0 then .error .usizeUnderflow
    else
      match MyCircuit.synthLoop cfg cs (fibSize - 3) (st1, b, c) with
      | .error e => .error e
      | .ok (st2, _, cFinal) => .ok (st2, cFinal)

/-- The shape produced by running `MyCircuit::configure` on a fresh
constraint system, as `MockProver::run` does (src/src/lib.rs line 218). -/
def theCS (F : Type) : ConstraintSystem F := (MyCircuit.configure ({} : ConstraintSystem F)).1

/-- The `FibConfig` produced by `MyCircuit::configure` on a fresh
constraint system. -/
def theCfg (F : Type) : FibConfig := (MyCircuit.configure ({} : ConstraintSystem F)).2

/-- Modelled from the spec: `MockProver::run(k, circuit, instance)`
configures a fresh shape and synthesizes the circuit from an empty grid
with the given public input column (src/src/lib.rs lines 204-219,
spec §4.3, §6). -/
def mockRun {F : Type} [Add F] (fibSize : ℕ) (inst : List (Option F)) :
    Except SynthError (SynthState F × AssignedCell F) :=
  let (cs, cfg) := MyCircuit.configure ({} : ConstraintSystem F)
  MyCircuit.synthesize cfg cs fibSize inst {}

/-- Modelled from the spec: resolving a cell of the witness grid
(spec §3 "Witness Grid").  The assignment log holds the latest write first;
an unassigned cell resolves to `none` (unknown). -/
def advLookup {F : Type} : List (ℕ × ℕ × Option F) → ℕ → ℕ → Option F
  | [], _, _ => none
  | (c, r, v) :: rest, col, row =>
    if c = col ∧ r = row then v else advLookup rest col row

/-- Modelled from the spec: addition on possibly-unknown values
(spec §9: "all arithmetic lifted to propagate Unknown"). -/
def vadd {F : Type} [Add F] : Option F → Option F → Option F
  | some a, some b => some (a + b)
  | _, _ => none

/-- Modelled from the spec: subtraction on possibly-unknown values. -/
def vsub {F : Type} [Sub F] : Option F → Option F → Option F
  | some a, some b => some (a - b)
  | _, _ => none

/-- Modelled from the spec: multiplication on possibly-unknown values.  A
known zero absorbs an unknown factor, so that a gate whose selector is 0 is
never required to vanish at rows whose other cells are unassigned (spec §3
"Gate" invariant). -/
def vmul {F : Type} [Mul F] [Zero F] [DecidableEq F] : Option F → Option F → Option F
  | some a, some b => some (a * b)
  | some a, none => if a = 0 then some 0 else none
  | none, some b => if b = 0 then some 0 else none
  | none, none => none

/-- Modelled from the spec: pure interpreter for gate polynomials at a row
(spec §4.4, §9).  A selector query yields 1 where enabled and 0 elsewhere;
an advice query resolves the queried column at `row + rotation`. -/
def evalPoly {F : Type} [Field F] [DecidableEq F] (st : SynthState F) (row : ℕ) :
    PolyExpr F → Option F
  | .const c => some c
  | .sel s => some (if (s, row) ∈ st.selRows then 1 else 0)
  | .advQuery col rot =>
      if 0 ≤ (row : ℤ) + rot then advLookup st.assigns col ((row : ℤ) + rot).toNat else none
  | .add e₁ e₂ => vadd (evalPoly st row e₁) (evalPoly st row e₂)
  | .sub e₁ e₂ => vsub (evalPoly st row e₁) (evalPoly st row e₂)
  | .mul e₁ e₂ => vmul (evalPoly st row e₁) (evalPoly st row e₂)

/-- Modelled from the spec: a reported violation with its location metadata
(spec §4.4, §6). -/
inductive Violation where
  | constraintNotSatisfied (gate : String) (row : ℕ)
  | eqConstraintNotSatisfied (src dst : ℕ × ℕ)
  | instanceNotSatisfied (b : InstBind)
deriving DecidableEq

/-- Modelled from the spec: gate checking — for every row and every gate,
each of the gate's polynomials must evaluate to zero; failures are listed
in row-major, then gate-registration order (spec §4.4). -/
def gateViolations {F : Type} [Field F] [DecidableEq F] (cs : ConstraintSystem F)
    (st : SynthState F) (numRows : ℕ) : List Violation :=
  (List.range numRows).flatMap fun row =>
    cs.gates.flatMap fun g =>
      g.polys.filterMap fun p =>
        if evalPoly st row p = some 0 then none
        else some (.constraintNotSatisfied g.name row)

/-- Modelled from the spec: copy-constraint checking — the two cells of
every recorded copy constraint must resolve to the same value, failures in
creation order (spec §4.4). -/
def copyViolations {F : Type} [DecidableEq F] (st : SynthState F) : List Violation :=
  st.copies.reverse.filterMap fun cp =>
    if advLookup st.assigns cp.1.1 cp.1.2 = advLookup st.assigns cp.2.1 cp.2.2 then none
    else some (.eqConstraintNotSatisfied cp.1 cp.2)

/-- Modelled from the spec: instance-binding checking — an advice cell bound
to an instance cell must resolve to that public input value (spec §4.4,
copy constraints in their implicit instance-advice form). -/
def instanceViolations {F : Type} [DecidableEq F] (inst : List (Option F))
    (st : SynthState F) : List Violation :=
  st.instBinds.reverse.filterMap fun ib =>
    if advLookup st.assigns ib.advCol ib.advRow = (inst.get? ib.instRow).join then none
    else some (.instanceNotSatisfied ib)

/-- Modelled from the spec: the full ordered violation list — gate
violations first, then copy-constraint violations, then instance bindings
(spec §4.4). -/
def allViolations {F : Type} [Field F] [DecidableEq F] (cs : ConstraintSystem F)
    (inst : List (Option F)) (st : SynthState F) (numRows : ℕ) : List Violation :=
  gateViolations cs st numRows ++ copyViolations st ++ instanceViolations inst st

/-- Modelled from the spec: `assert_satisfied` succeeds iff the violation
list is empty (spec §4.4). -/
def assertSatisfied {F : Type} [Field F] [DecidableEq F] (cs : ConstraintSystem F)
    (inst : List (Option F)) (st : SynthState F) (numRows : ℕ) : Bool :=
  (allViolations cs inst st numRows).isEmpty

/-- The Fibonacci-style sequence with prescribed first two terms, the
mathematical yardstick for the recurrence scenario (spec §8,
"Recurrence end-to-end"). -/
def fibSeq {F : Type} [Add F] (x y : F) : ℕ → F
  | 0 => x
  | 1 => y
  | n + 2 => fibSeq x y n + fibSeq x y (n + 1)

/-- The total number of one-row regions laid out by a successful mock run:
each region occupies exactly one absolute row, so the row cursor counts
them. -/
def totalRegions (F : Type) [Add F] [DecidableEq F] (fibSize : ℕ) (inst : List (Option F)) :
    Option ℕ :=
  match mockRun fibSize inst with
  | .ok (st, _) => some st.nextRow
  | .error _ => none

section Helpers

variable {F : Type}

lemma advLookup_cons_self (l : List (ℕ × ℕ × Option F)) (c r : ℕ) (v : Option F) :
    advLookup ((c, r, v) :: l) c r = v := by
  show (if c = c ∧ r = r then v else advLookup l c r) = v
  rw [if_pos ⟨rfl, rfl⟩]

lemma advLookup_cons_row_ne (l : List (ℕ × ℕ × Option F)) (c r : ℕ) (v : Option F)
    (col row : ℕ) (h : r ≠ row) :
    advLookup ((c, r, v) :: l) col row = advLookup l col row := by
  show (if c = col ∧ r = row then v else advLookup l col row) = advLookup l col row
  rw [if_neg]
  rintro ⟨-, h2⟩
  exact h h2

lemma advLookup_cons_col_ne (l : List (ℕ × ℕ × Option F)) (c r : ℕ) (v : Option F)
    (col row : ℕ) (h : c ≠ col) :
    advLookup ((c, r, v) :: l) col row = advLookup l col row := by
  show (if c = col ∧ r = row then v else advLookup l col row) = advLookup l col row
  rw [if_neg]
  rintro ⟨h1, -⟩
  exact h h1

lemma bind_bind_some_eq_vadd [Add F] (v0 v1 : Option F) :
    (v0.bind fun a => v1.bind fun b => some (a + b)) = vadd v0 v1 := by
  cases v0 <;> cases v1 <;> rfl

lemma bind_map_eq_vadd [Add F] (v0 v1 : Option F) :
    (v0.bind fun x => v1.map fun y => x + y) = vadd v0 v1 := by
  cases v0 <;> cases v1 <;> rfl

/-- The polynomial of the `"add"` gate as registered by
`FibChip::configure` under the column indices allocated by
`MyCircuit::configure`. -/
def addGatePoly (F : Type) : PolyExpr F :=
  .mul (.sel 0) (.sub (.add (.advQuery 0 0) (.advQuery 1 0)) (.advQuery 2 0))

lemma theCS_eq : theCS F =
    { numAdvice := 3, numInstance := 1, numSelectors := 1,
      eqAdvice := [2, 1, 0], eqInstance := [0],
      gates := [⟨addGateName, [addGatePoly F]⟩] } := rfl

lemma theCfg_eq : theCfg F = ⟨0, 1, 2, 0, 0⟩ := rfl

lemma assignFirstRow_eq [Add F] (st0 : SynthState F) (v0 v1 : Option F)
    (rest : List (Option F)) :
    FibChip.assignFirstRow (theCfg F) (theCS F) (v0 :: v1 :: rest) st0 =
      .ok ({ st0 with
              assigns := (2, st0.nextRow, v0.bind fun a => v1.bind fun b => some (a + b)) ::
                (1, st0.nextRow, v1) :: (0, st0.nextRow, v0) :: st0.assigns,
              instBinds := ⟨0, 1, 1, st0.nextRow⟩ :: ⟨0, 0, 0, st0.nextRow⟩ :: st0.instBinds,
              selRows := (0, st0.nextRow) :: st0.selRows,
              nextRow := st0.nextRow + 1 },
            (⟨0, st0.nextRow, v0⟩, ⟨1, st0.nextRow, v1⟩,
             ⟨2, st0.nextRow, v0.bind fun a => v1.bind fun b => some (a + b)⟩)) := rfl

lemma copyAdvice_ok (cs : ConstraintSystem F) (st : SynthState F) (src : AssignedCell F)
    (col row : ℕ) (h1 : src.col ∈ cs.eqAdvice) (h2 : col ∈ cs.eqAdvice) :
    copyAdvice cs st src col row =
      .ok ({ st with
              assigns := (col, row, src.val) :: st.assigns,
              copies := ((src.col, src.row), (col, row)) :: st.copies },
           ⟨col, row, src.val⟩) := by
  rw [copyAdvice, if_pos ⟨h1, h2⟩]

lemma assignRow_eq [Add F] (st0 : SynthState F) (a b : AssignedCell F)
    (ha : a.col ∈ (theCS F).eqAdvice) (hb : b.col ∈ (theCS F).eqAdvice) :
    FibChip.assignRow (theCfg F) (theCS F) st0 a b =
      .ok ({ st0 with
              assigns := (2, st0.nextRow, a.val.bind fun x => b.val.map fun y => x + y) ::
                (1, st0.nextRow, b.val) :: (0, st0.nextRow, a.val) :: st0.assigns,
              copies := ((b.col, b.row), (1, st0.nextRow)) ::
                ((a.col, a.row), (0, st0.nextRow)) :: st0.copies,
              selRows := (0, st0.nextRow) :: st0.selRows,
              nextRow := st0.nextRow + 1 },
            ⟨2, st0.nextRow, a.val.bind fun x => b.val.map fun y => x + y⟩) := by
  have hA : (theCfg F).colA ∈ (theCS F).eqAdvice := by rw [theCfg_eq, theCS_eq]; simp
  have hB : (theCfg F).colB ∈ (theCS F).eqAdvice := by rw [theCfg_eq, theCS_eq]; simp
  unfold FibChip.assignRow
  simp only [copyAdvice_ok _ _ _ _ _ ha hA, copyAdvice_ok _ _ _ _ _ hb hB]
  rfl

end Helpers

section Invariant

variable {F : Type} [Field F] [DecidableEq F]

lemma evalPoly_sel_enabled (st : SynthState F) (row : ℕ) (h : (0, row) ∈ st.selRows) :
    evalPoly st row (.sel 0) = some 1 := by
  show some (if (0, row) ∈ st.selRows then (1 : F) else 0) = some 1
  rw [if_pos h]

lemma evalPoly_sel_disabled (st : SynthState F) (row : ℕ) (h : (0, row) ∉ st.selRows) :
    evalPoly st row (.sel 0) = some 0 := by
  show some (if (0, row) ∈ st.selRows then (1 : F) else 0) = some 0
  rw [if_neg h]

lemma evalPoly_advQuery_cur (st : SynthState F) (row col : ℕ) :
    evalPoly st row (.advQuery col 0) = advLookup st.assigns col row := by
  show (if (0 : ℤ) ≤ (row : ℤ) + 0 then advLookup st.assigns col ((row : ℤ) + 0).toNat
      else none) = advLookup st.assigns col row
  rw [if_pos (by omega)]
  norm_num

/-- Invariant carried through the `next_row` loop of `MyCircuit::synthesize`
with public inputs `x`, `y`: after `k` iterations the grid holds exactly
rows `0..k` of the Fibonacci-style table, the selector is enabled exactly
on those rows, every recorded copy constraint is satisfied by the grid,
and the only instance bindings are the two made by `assign_first_row`. -/
structure LoopInv (x y : F) (k : ℕ) (st : SynthState F) (b c : AssignedCell F) : Prop where
  nextRow_eq : st.nextRow = k + 1
  bVal : b.val = some (fibSeq x y (k + 1))
  cVal : c.val = some (fibSeq x y (k + 2))
  bCol : b.col = 1 ∨ b.col = 2
  cCol : c.col = 2
  bLook : advLookup st.assigns b.col b.row = b.val
  cLook : advLookup st.assigns c.col c.row = c.val
  rowsLe : ∀ r, r ≤ k →
    advLookup st.assigns 0 r = some (fibSeq x y r) ∧
    advLookup st.assigns 1 r = some (fibSeq x y (r + 1)) ∧
    advLookup st.assigns 2 r = some (fibSeq x y (r + 2))
  rowsGt : ∀ col r, k < r → advLookup st.assigns col r = none
  selChar : ∀ p : ℕ × ℕ, p ∈ st.selRows ↔ p.1 = 0 ∧ p.2 ≤ k
  copiesOK : ∀ cp ∈ st.copies,
    advLookup st.assigns cp.1.1 cp.1.2 = advLookup st.assigns cp.2.1 cp.2.2 ∧
    advLookup st.assigns cp.1.1 cp.1.2 ≠ none
  instBindsEq : st.instBinds = [⟨0, 1, 1, 0⟩, ⟨0, 0, 0, 0⟩]

/-- The synthesis state right after `assign_first_row` on an empty grid
with public inputs `x`, `y`. -/
def baseState (x y : F) : SynthState F :=
  ⟨[(2, 0, some (x + y)), (1, 0, some y), (0, 0, some x)], [],
    [⟨0, 1, 1, 0⟩, ⟨0, 0, 0, 0⟩], [(0, 0)], 1⟩

/-- The `b` cell returned by `assign_first_row` on an empty grid. -/
def baseB (y : F) : AssignedCell F := ⟨1, 0, some y⟩

/-- The `c` cell returned by `assign_first_row` on an empty grid. -/
def baseC (x y : F) : AssignedCell F := ⟨2, 0, some (x + y)⟩

lemma loopInv_base (x y : F) : LoopInv x y 0 (baseState x y) (baseB y) (baseC x y) := by
  refine ⟨rfl, rfl, rfl, Or.inl rfl, rfl, rfl, rfl, ?_, ?_, ?_, ?_, rfl⟩
  · intro r hr
    have hr0 : r = 0 := Nat.le_zero.mp hr
    subst hr0
    exact ⟨rfl, rfl, rfl⟩
  · intro col r hgt
    simp only [baseState]
    rw [advLookup_cons_row_ne _ _ _ _ _ _ (by omega),
      advLookup_cons_row_ne _ _ _ _ _ _ (by omega),
      advLookup_cons_row_ne _ _ _ _ _ _ (by omega)]
    rfl
  · rintro ⟨p1, p2⟩
    simp [baseState, Prod.ext_iff, Nat.le_zero]
  · intro cp hcp
    simp [baseState] at hcp

/-- The synthesis state after one more `assign_row` region consuming the
cells `b` and `c`. -/
def stepState (st : SynthState F) (b c : AssignedCell F) : SynthState F :=
  { st with
      assigns := (2, st.nextRow, b.val.bind fun u => c.val.map fun w => u + w) ::
        (1, st.nextRow, c.val) :: (0, st.nextRow, b.val) :: st.assigns,
      copies := ((c.col, c.row), (1, st.nextRow)) ::
        ((b.col, b.row), (0, st.nextRow)) :: st.copies,
      selRows := (0, st.nextRow) :: st.selRows,
      nextRow := st.nextRow + 1 }

/-- The `c` cell returned by one more `assign_row` region. -/
def stepCell (st : SynthState F) (b c : AssignedCell F) : AssignedCell F :=
  ⟨2, st.nextRow, b.val.bind fun u => c.val.map fun w => u + w⟩

lemma assignRow_step (x y : F) (j : ℕ) (st : SynthState F) (b c : AssignedCell F)
    (h : LoopInv x y j st b c) :
    FibChip.assignRow (theCfg F) (theCS F) st b c = .ok (stepState st b c, stepCell st b c) ∧
      LoopInv x y (j + 1) (stepState st b c) c (stepCell st b c) := by
  have hbmem : b.col ∈ (theCS F).eqAdvice := by
    rcases h.bCol with h1 | h1 <;> rw [theCS_eq] <;> simp [h1]
  have hcmem : c.col ∈ (theCS F).eqAdvice := by rw [theCS_eq]; simp [h.cCol]
  have hrow : st.nextRow = j + 1 := h.nextRow_eq
  have hble : b.row ≤ j := by
    by_contra hgt
    have h0 := h.rowsGt b.col b.row (by omega)
    rw [h.bLook, h.bVal] at h0
    exact Option.noConfusion h0
  have hcle : c.row ≤ j := by
    by_contra hgt
    have h0 := h.rowsGt c.col c.row (by omega)
    rw [h.cLook, h.cVal] at h0
    exact Option.noConfusion h0
  have stable : ∀ col row, row ≤ j →
      advLookup (stepState st b c).assigns col row = advLookup st.assigns col row := by
    intro col row hr
    simp only [stepState]
    rw [advLookup_cons_row_ne _ _ _ _ _ _ (by omega),
      advLookup_cons_row_ne _ _ _ _ _ _ (by omega),
      advLookup_cons_row_ne _ _ _ _ _ _ (by omega)]
  have hlook0 : advLookup (stepState st b c).assigns 0 st.nextRow = b.val := by
    simp only [stepState]
    rw [advLookup_cons_col_ne _ _ _ _ _ _ (by omega),
      advLookup_cons_col_ne _ _ _ _ _ _ (by omega), advLookup_cons_self]
  have hlook1 : advLookup (stepState st b c).assigns 1 st.nextRow = c.val := by
    simp only [stepState]
    rw [advLookup_cons_col_ne _ _ _ _ _ _ (by omega), advLookup_cons_self]
  have hlook2 : advLookup (stepState st b c).assigns 2 st.nextRow =
      (b.val.bind fun u => c.val.map fun w => u + w) := by
    simp only [stepState]
    rw [advLookup_cons_self]
  have hcstep : (stepCell st b c).val = some (fibSeq x y (j + 1 + 2)) := by
    simp only [stepCell]
    rw [h.bVal, h.cVal]
    rfl
  refine ⟨assignRow_eq st b c hbmem hcmem, ?_⟩
  refine ⟨?_, h.cVal, hcstep, Or.inr h.cCol, rfl, ?_, ?_, ?_, ?_, ?_, ?_, ?_⟩
  · simp only [stepState]
    omega
  · rw [stable c.col c.row hcle, h.cLook]
  · show advLookup (stepState st b c).assigns 2 st.nextRow = (stepCell st b c).val
    rw [hlook2]
    rfl
  · intro r hr
    by_cases hle : r ≤ j
    · obtain ⟨e0, e1, e2⟩ := h.rowsLe r hle
      exact ⟨(stable 0 r hle).trans e0, (stable 1 r hle).trans e1, (stable 2 r hle).trans e2⟩
    · have hr1 : r = st.nextRow := by omega
      subst hr1
      refine ⟨?_, ?_, ?_⟩
      · rw [hlook0, h.bVal, hrow]
      · rw [hlook1, h.cVal, hrow]
      · rw [hlook2, h.bVal, h.cVal]
        show some (fibSeq x y (j + 1) + fibSeq x y (j + 2)) = some (fibSeq x y (st.nextRow + 2))
        congr 1
        rw [show st.nextRow + 2 = j + 1 + 2 by omega]
        rfl
  · intro col r hgt
    simp only [stepState]
    rw [advLookup_cons_row_ne _ _ _ _ _ _ (by omega),
      advLookup_cons_row_ne _ _ _ _ _ _ (by omega),
      advLookup_cons_row_ne _ _ _ _ _ _ (by omega)]
    exact h.rowsGt col r (by omega)
  · rintro ⟨p1, p2⟩
    simp only [stepState, List.mem_cons, h.selChar (p1, p2), Prod.ext_iff]
    constructor
    · rintro (⟨rfl, rfl⟩ | ⟨rfl, hp⟩)
      · exact ⟨rfl, by omega⟩
      · exact ⟨rfl, by omega⟩
    · rintro ⟨rfl, hp⟩
      by_cases hpj : p2 ≤ j
      · exact Or.inr ⟨rfl, hpj⟩
      · exact Or.inl ⟨rfl, by omega⟩
  · intro cp hcp
    simp only [stepState, List.mem_cons] at hcp
    rcases hcp with rfl | rfl | hcp
    · constructor
      · show advLookup (stepState st b c).assigns c.col c.row =
          advLookup (stepState st b c).assigns 1 st.nextRow
        rw [stable c.col c.row hcle, h.cLook, hlook1]
      · show advLookup (stepState st b c).assigns c.col c.row ≠ none
        rw [stable c.col c.row hcle, h.cLook, h.cVal]
        exact Option.noConfusion
    · constructor
      · show advLookup (stepState st b c).assigns b.col b.row =
          advLookup (stepState st b c).assigns 0 st.nextRow
        rw [stable b.col b.row hble, h.bLook, hlook0]
      · show advLookup (stepState st b c).assigns b.col b.row ≠ none
        rw [stable b.col b.row hble, h.bLook, h.bVal]
        exact Option.noConfusion
    · obtain ⟨heq, hne⟩ := h.copiesOK cp hcp
      have hr1 : cp.1.2 ≤ j := by
        by_contra hgt
        exact hne (h.rowsGt cp.1.1 cp.1.2 (by omega))
      have hr2 : cp.2.2 ≤ j := by
        by_contra hgt
        rw [heq] at hne
        exact hne (h.rowsGt cp.2.1 cp.2.2 (by omega))
      rw [stable cp.1.1 cp.1.2 hr1, stable cp.2.1 cp.2.2 hr2]
      exact ⟨heq, hne⟩
  · simp only [stepState]
    exact h.instBindsEq

lemma synthLoop_inv (x y : F) (k : ℕ) :
    ∀ (j : ℕ) (st : SynthState F) (b c : AssignedCell F), LoopInv x y j st b c →
      ∃ st2 b2 c2,
        MyCircuit.synthLoop (theCfg F) (theCS F) k (st, b, c) = .ok (st2, b2, c2) ∧
        LoopInv x y (j + k) st2 b2 c2 := by
  induction k with
  | zero =>
      intro j st b c h
      exact ⟨st, b, c, rfl, by simpa using h⟩
  | succ k ih =>
      intro j st b c h
      obtain ⟨heq, hinv⟩ := assignRow_step x y j st b c h
      obtain ⟨st2, b2, c2, hloop, hinv2⟩ := ih (j + 1) _ _ _ hinv
      refine ⟨st2, b2, c2, ?_, ?_⟩
      · simp only [MyCircuit.synthLoop]
        rw [heq]
        exact hloop
      · rw [show j + (k + 1) = j + 1 + k by omega]
        exact hinv2

lemma mockRun_ok_inv (x y : F) (N : ℕ) (hN : 1 ≤ N) :
    ∃ st b c, mockRun N [some x, some y] = .ok (st, c) ∧ LoopInv x y (N - 3) st b c := by
  obtain ⟨st2, b2, c2, hloop, hinv⟩ :=
    synthLoop_inv x y (N - 3) 0 (baseState x y) (baseB y) (baseC x y) (loopInv_base x y)
  refine ⟨st2, b2, c2, ?_, by simpa using hinv⟩
  have key : mockRun N [some x, some y] =
      (if N = 0 then (.error .usizeUnderflow : Except SynthError (SynthState F × AssignedCell F))
       else
        match MyCircuit.synthLoop (theCfg F) (theCS F) (N - 3)
            (baseState x y, baseB y, baseC x y) with
        | .error e => .error e
        | .ok (st2, _, cFinal) => .ok (st2, cFinal)) := rfl
  rw [key, if_neg (by omega : ¬ N = 0), hloop]

lemma evalAddGate_eq_zero (x y : F) (k : ℕ) (st : SynthState F) (b c : AssignedCell F)
    (h : LoopInv x y k st b c) (row : ℕ) :
    evalPoly st row (addGatePoly F) = some 0 := by
  have hmul : evalPoly st row (addGatePoly F) =
      vmul (evalPoly st row (.sel 0))
        (vsub (vadd (evalPoly st row (.advQuery 0 0)) (evalPoly st row (.advQuery 1 0)))
          (evalPoly st row (.advQuery 2 0))) := rfl
  rw [hmul, evalPoly_advQuery_cur, evalPoly_advQuery_cur, evalPoly_advQuery_cur]
  by_cases hle : row ≤ k
  · obtain ⟨e0, e1, e2⟩ := h.rowsLe row hle
    rw [e0, e1, e2, evalPoly_sel_enabled st row ((h.selChar (0, row)).mpr ⟨rfl, hle⟩)]
    show some (1 * (fibSeq x y row + fibSeq x y (row + 1) - fibSeq x y (row + 2))) = some 0
    rw [show fibSeq x y (row + 2) = fibSeq x y row + fibSeq x y (row + 1) from rfl]
    rw [sub_self, mul_zero]
  · have hnot : (0, row) ∉ st.selRows := by
      intro hmem
      exact absurd ((h.selChar (0, row)).mp hmem).2 (by omega)
    rw [h.rowsGt 0 row (by omega), h.rowsGt 1 row (by omega), h.rowsGt 2 row (by omega),
      evalPoly_sel_disabled st row hnot]
    show (if (0 : F) = 0 then some (0 : F) else none) = some 0
    rw [if_pos rfl]

lemma gateViolations_nil_of_inv (x y : F) (k : ℕ) (st : SynthState F) (b c : AssignedCell F)
    (h : LoopInv x y k st b c) (numRows : ℕ) :
    gateViolations (theCS F) st numRows = [] := by
  unfold gateViolations
  rw [List.flatMap_eq_nil_iff]
  intro row hrow
  rw [List.flatMap_eq_nil_iff]
  intro g hg
  simp only [theCS_eq, List.mem_singleton] at hg
  subst hg
  rw [List.filterMap_eq_nil_iff]
  intro p hp
  simp only [List.mem_singleton] at hp
  subst hp
  rw [if_pos (evalAddGate_eq_zero x y k st b c h row)]

lemma copyViolations_nil_of_inv (x y : F) (k : ℕ) (st : SynthState F) (b c : AssignedCell F)
    (h : LoopInv x y k st b c) : copyViolations st = [] := by
  unfold copyViolations
  rw [List.filterMap_eq_nil_iff]
  intro cp hcp
  rw [List.mem_reverse] at hcp
  rw [if_pos (h.copiesOK cp hcp).1]

lemma instanceViolations_nil_of_inv (x y : F) (k : ℕ) (st : SynthState F)
    (b c : AssignedCell F) (h : LoopInv x y k st b c) :
    instanceViolations [some x, some y] st = [] := by
  obtain ⟨e0, e1, -⟩ := h.rowsLe 0 (Nat.zero_le k)
  unfold instanceViolations
  rw [h.instBindsEq, List.filterMap_eq_nil_iff]
  intro ib hib
  rw [List.mem_reverse] at hib
  simp only [List.mem_cons, List.mem_singleton, List.not_mem_nil, or_false] at hib
  rcases hib with rfl | rfl
  · rw [if_pos (by rw [e1]; rfl)]
  · rw [if_pos (by rw [e0]; rfl)]

lemma allViolations_nil_of_inv (x y : F) (k : ℕ) (st : SynthState F) (b c : AssignedCell F)
    (h : LoopInv x y k st b c) (numRows : ℕ) :
    allViolations (theCS F) [some x, some y] st numRows = [] := by
  unfold allViolations
  rw [gateViolations_nil_of_inv x y k st b c h, copyViolations_nil_of_inv x y k st b c h,
    instanceViolations_nil_of_inv x y k st b c h]
  rfl

lemma fibSeq_one_one : ∀ n : ℕ, fibSeq (1 : F) 1 n = (Nat.fib (n + 1) : F)
  | 0 => by rw [fibSeq, Nat.fib_one, Nat.cast_one]
  | 1 => by rw [fibSeq, Nat.fib_two, Nat.cast_one]
  | n + 2 => by
      rw [fibSeq, fibSeq_one_one n, fibSeq_one_one (n + 1), ← Nat.cast_add]
      exact congrArg (fun m : ℕ => (m : F)) (@Nat.fib_add_two (n + 1)).symm

end Invariant

section General

variable {F : Type} [Field F] [DecidableEq F]

/-- The synthesis state right after `assign_first_row` on an empty grid,
for arbitrary (possibly unknown) public input values. -/
def fstState (v0 v1 : Option F) : SynthState F :=
  ⟨[(2, 0, v0.bind fun a => v1.bind fun b => some (a + b)), (1, 0, v1), (0, 0, v0)], [],
    [⟨0, 1, 1, 0⟩, ⟨0, 0, 0, 0⟩], [(0, 0)], 1⟩

/-- The `b` cell returned by `assign_first_row` on an empty grid. -/
def fstB (v1 : Option F) : AssignedCell F := ⟨1, 0, v1⟩

/-- The `c` cell returned by `assign_first_row` on an empty grid. -/
def fstC (v0 v1 : Option F) : AssignedCell F :=
  ⟨2, 0, v0.bind fun a => v1.bind fun b => some (a + b)⟩

lemma mockRun_unfold (N : ℕ) (v0 v1 : Option F) (rest : List (Option F)) :
    mockRun N (v0 :: v1 :: rest) =
      (if N = 0 then (.error .usizeUnderflow : Except SynthError (SynthState F × AssignedCell F))
       else
        match MyCircuit.synthLoop (theCfg F) (theCS F) (N - 3)
            (fstState v0 v1, fstB v1, fstC v0 v1) with
        | .error e => .error e
        | .ok (st2, _, cFinal) => .ok (st2, cFinal)) := rfl

lemma mockRun_zero (v0 v1 : Option F) (rest : List (Option F)) :
    mockRun 0 (v0 :: v1 :: rest) = .error .usizeUnderflow := by
  rw [mockRun_unfold, if_pos rfl]

lemma mockRun_nil (N : ℕ) : mockRun (F := F) N [] = .error .instanceOutOfRange := rfl

lemma mockRun_single (N : ℕ) (v0 : Option F) :
    mockRun N [v0] = .error .instanceOutOfRange := rfl

lemma synthLoop_ok (k : ℕ) :
    ∀ (st : SynthState F) (b c : AssignedCell F), (b.col = 1 ∨ b.col = 2) → c.col = 2 →
      ∃ st2 b2 c2,
        MyCircuit.synthLoop (theCfg F) (theCS F) k (st, b, c) = .ok (st2, b2, c2) ∧
        (b2.col = 1 ∨ b2.col = 2) ∧ c2.col = 2 ∧ st2.instBinds = st.instBinds := by
  induction k with
  | zero =>
      intro st b c hb hc
      exact ⟨st, b, c, rfl, hb, hc, rfl⟩
  | succ k ih =>
      intro st b c hb hc
      have hbmem : b.col ∈ (theCS F).eqAdvice := by
        rcases hb with h1 | h1 <;> rw [theCS_eq] <;> simp [h1]
      have hcmem : c.col ∈ (theCS F).eqAdvice := by rw [theCS_eq]; simp [hc]
      obtain ⟨st2, b2, c2, hloop, hb2, hc2, hbinds⟩ :=
        ih (stepState st b c) c (stepCell st b c) (Or.inr hc) rfl
      refine ⟨st2, b2, c2, ?_, hb2, hc2, ?_⟩
      · simp only [MyCircuit.synthLoop]
        rw [assignRow_eq st b c hbmem hcmem]
        exact hloop
      · rw [hbinds]
        simp only [stepState]

lemma mockRun_ok_general (N : ℕ) (hN : 1 ≤ N) (v0 v1 : Option F) (rest : List (Option F)) :
    ∃ st cFinal, mockRun N (v0 :: v1 :: rest) = .ok (st, cFinal) ∧
      st.instBinds = [⟨0, 1, 1, 0⟩, ⟨0, 0, 0, 0⟩] := by
  obtain ⟨st2, b2, c2, hloop, -, -, hbinds⟩ :=
    synthLoop_ok (N - 3) (fstState v0 v1) (fstB v1) (fstC v0 v1) (Or.inl rfl) rfl
  refine ⟨st2, c2, ?_, by rw [hbinds]; rfl⟩
  rw [mockRun_unfold, if_neg (by omega : ¬ N = 0), hloop]

end General

instance : Fact (Nat.Prime 101) := ⟨by norm_num⟩

/-- A concrete witness state: the result of `mockRun 2 [1, 1]` over
`ZMod 101`, used to instantiate the hypothesis-bearing theorems. -/
def witState : SynthState (ZMod 101) :=
  ⟨[(2, 0, some 2), (1, 0, some 1), (0, 0, some 1)], [],
    [⟨0, 1, 1, 0⟩, ⟨0, 0, 0, 0⟩], [(0, 0)], 1⟩

/-- The final `c` cell of `mockRun 2 [1, 1]` over `ZMod 101`. -/
def witCell : AssignedCell (ZMod 101) := ⟨2, 0, some 2⟩

/-- A concrete source cell in advice column 0 for exercising `assign_row`. -/
def wCellA : AssignedCell (ZMod 101) := ⟨0, 0, some 1⟩

/-- A concrete source cell in advice column 1 for exercising `assign_row`. -/
def wCellB : AssignedCell (ZMod 101) := ⟨1, 0, some 2⟩

/-- C1 (amended): for every `N ≥ 2`, the mock run with public inputs
`[1, 1]` succeeds; the first region holds `a = 1`, `b = 1`, `c = 2`; it is
followed by exactly `N - 3` recurrence regions (not `N - 2` as claimed: the
loop `3..=N-1` has `N - 3` iterations), so the row cursor ends at
`(N - 3) + 1`; the final `c` cell holds the `max N 3`-th Fibonacci-style
term (the `N`-th for `N ≥ 3`); and `assert_satisfied` reports no
violations, whatever the number of checked rows. -/
theorem recurrence_end_to_end (F : Type) [Field F] [DecidableEq F] (N numRows : ℕ)
    (hN : 2 ≤ N) :
    ∃ st cFinal, mockRun N [some (1 : F), some 1] = .ok (st, cFinal) ∧
      advLookup st.assigns 0 0 = some 1 ∧
      advLookup st.assigns 1 0 = some 1 ∧
      advLookup st.assigns 2 0 = some 2 ∧
      st.nextRow = (N - 3) + 1 ∧
      cFinal.val = some ((Nat.fib (max N 3) : ℕ) : F) ∧
      assertSatisfied (theCS F) [some 1, some 1] st numRows = true := by
  obtain ⟨st, b, c, heq, hinv⟩ := mockRun_ok_inv (1 : F) 1 N (by omega)
  obtain ⟨e0, e1, e2⟩ := hinv.rowsLe 0 (Nat.zero_le _)
  refine ⟨st, c, heq, ?_, ?_, ?_, hinv.nextRow_eq, ?_, ?_⟩
  · rw [e0]
    rfl
  · rw [e1]
    rfl
  · rw [e2]
    show some ((1 : F) + 1) = some 2
    rw [one_add_one_eq_two]
  · rw [hinv.cVal, fibSeq_one_one]
    have harg : N - 3 + 2 + 1 = max N 3 := by
      rcases Nat.le_total N 3 with h3 | h3
      · rw [Nat.max_eq_right h3]
        omega
      · rw [Nat.max_eq_left h3]
        omega
    rw [harg]
  · unfold assertSatisfied
    rw [allViolations_nil_of_inv 1 1 (N - 3) st b c hinv numRows]
    rfl

/-- C1 witness: the amended statement instantiated at `N = 5` over
`ZMod 101`. -/
theorem recurrence_end_to_end_witness :
    ∃ st cFinal, mockRun 5 [some (1 : ZMod 101), some 1] = .ok (st, cFinal) ∧
      advLookup st.assigns 0 0 = some 1 ∧
      advLookup st.assigns 1 0 = some 1 ∧
      advLookup st.assigns 2 0 = some 2 ∧
      st.nextRow = (5 - 3) + 1 ∧
      cFinal.val = some ((Nat.fib (max 5 3) : ℕ) : ZMod 101) ∧
      assertSatisfied (theCS (ZMod 101)) [some 1, some 1] st 8 = true :=
  recurrence_end_to_end (ZMod 101) 5 8 (by decide)

/-- C1 counterexample: at `fib_size = 3` the run lays out a single region
(the first row) — not `1 + (3 - 2) = 2` regions as the claim's "exactly
`N - 2` recurrence regions" would require. -/
theorem recurrence_region_count_claim_false :
    totalRegions (ZMod 101) 3 [some 1, some 1] = some 1 ∧
      some ((1 : ℕ) + (3 - 2)) ≠ totalRegions (ZMod 101) 3 [some 1, some 1] := by
  constructor
  · decide
  · decide

/-- C2: `configure` registers exactly one gate, whose single polynomial is
`selector * (a + b - c)` with the three advice columns queried at the
current-row rotation (rotation 0), over a shape with exactly three advice
columns and one instance column. -/
theorem configure_registers_single_gate (F : Type) :
    (theCS F).gates = [⟨addGateName, [.mul (.sel (theCfg F).sel)
        (.sub (.add (.advQuery (theCfg F).colA 0) (.advQuery (theCfg F).colB 0))
          (.advQuery (theCfg F).colC 0))]⟩] ∧
    (theCS F).numAdvice = 3 ∧ (theCS F).numInstance = 1 :=
  ⟨rfl, rfl, rfl⟩

/-- C3 (code bug): `without_witnesses()` returns `Self::default()`, whose
`fib_size` is `0`; `synthesize` then computes `self.fib_size - 1` on a
`usize`, which underflows, so the shape-only synthesis aborts with a fatal
error instead of running to completion with all-Unknown values. -/
theorem without_witnesses_cannot_synthesize (F : Type) [Field F] [DecidableEq F] :
    (MyCircuit.withoutWitnesses ⟨1000000⟩).fibSize = 0 ∧
    ∀ (v0 v1 : Option F) (rest : List (Option F)),
      mockRun (MyCircuit.withoutWitnesses ⟨1000000⟩).fibSize (v0 :: v1 :: rest) =
        .error .usizeUnderflow :=
  ⟨rfl, fun v0 v1 rest => mockRun_zero v0 v1 rest⟩

/-- C4: if the gate's selector evaluates to 0 at a row, then every
polynomial of the registered gate evaluates to 0 there — whatever the cell
values at that row — so no `ConstraintNotSatisfied` violation for the gate
is reported at that row. -/
theorem gate_locality (F : Type) [Field F] [DecidableEq F] (st : SynthState F)
    (row numRows : ℕ) (hsel : evalPoly st row (.sel 0) = some 0) :
    (∀ g ∈ (theCS F).gates, ∀ p ∈ g.polys, evalPoly st row p = some 0) ∧
    Violation.constraintNotSatisfied addGateName row ∉ gateViolations (theCS F) st numRows := by
  have key : evalPoly st row (addGatePoly F) = some 0 := by
    have hmul : evalPoly st row (addGatePoly F) =
        vmul (evalPoly st row (.sel 0))
          (vsub (vadd (evalPoly st row (.advQuery 0 0)) (evalPoly st row (.advQuery 1 0)))
            (evalPoly st row (.advQuery 2 0))) := rfl
    rw [hmul, hsel]
    cases hv : vsub (vadd (evalPoly st row (.advQuery 0 0)) (evalPoly st row (.advQuery 1 0)))
        (evalPoly st row (.advQuery 2 0)) with
    | none =>
        show (if (0 : F) = 0 then some (0 : F) else none) = some 0
        rw [if_pos rfl]
    | some v =>
        show some (0 * v) = some 0
        rw [zero_mul]
  constructor
  · intro g hg p hp
    simp only [theCS_eq, List.mem_singleton] at hg
    subst hg
    simp only [List.mem_singleton] at hp
    subst hp
    exact key
  · intro hmem
    simp only [gateViolations, List.mem_flatMap, List.mem_filterMap, List.mem_range] at hmem
    obtain ⟨r, hr, g, hg, p, hp, hif⟩ := hmem
    simp only [theCS_eq, List.mem_singleton] at hg
    subst hg
    simp only [List.mem_singleton] at hp
    subst hp
    by_cases he : evalPoly st r (addGatePoly F) = some 0
    · rw [if_pos he] at hif
      exact Option.noConfusion hif
    · rw [if_neg he] at hif
      injection hif with hif
      injection hif with hname hrow
      subst hrow
      exact he key

/-- C4 witness: the empty state at row 0 has a disabled selector, hence
evaluates to `some 0`, and the gate reports no violation there. -/
theorem gate_locality_witness :
    (∀ g ∈ (theCS (ZMod 101)).gates, ∀ p ∈ g.polys,
        evalPoly ({} : SynthState (ZMod 101)) 0 p = some 0) ∧
    Violation.constraintNotSatisfied addGateName 0 ∉
      gateViolations (theCS (ZMod 101)) ({} : SynthState (ZMod 101)) 4 :=
  gate_locality (ZMod 101) {} 0 4 (by decide)

/-- C5: `assign_first_row` copies `instance[0]` into advice column 0 and
`instance[1]` into advice column 1 at the region's row, records the two
implicit instance-advice copy constraints, and assigns column 2 the value
`a + b` (with unknowns propagating). -/
theorem assign_first_row_behaviour (F : Type) [Field F] [DecidableEq F]
    (st0 : SynthState F) (v0 v1 : Option F) (rest : List (Option F)) :
    ∃ st1 aCell bCell cCell,
      FibChip.assignFirstRow (theCfg F) (theCS F) (v0 :: v1 :: rest) st0 =
        .ok (st1, (aCell, bCell, cCell)) ∧
      aCell = ⟨0, st0.nextRow, v0⟩ ∧
      bCell = ⟨1, st0.nextRow, v1⟩ ∧
      cCell.col = 2 ∧ cCell.row = st0.nextRow ∧ cCell.val = vadd v0 v1 ∧
      st1.instBinds = ⟨0, 1, 1, st0.nextRow⟩ :: ⟨0, 0, 0, st0.nextRow⟩ :: st0.instBinds ∧
      advLookup st1.assigns 0 st0.nextRow = v0 ∧
      advLookup st1.assigns 1 st0.nextRow = v1 ∧
      advLookup st1.assigns 2 st0.nextRow = vadd v0 v1 := by
  refine ⟨_, _, _, _, assignFirstRow_eq st0 v0 v1 rest, rfl, rfl, rfl, rfl, ?_, rfl, ?_, ?_, ?_⟩
  · exact bind_bind_some_eq_vadd v0 v1
  · rw [advLookup_cons_col_ne _ _ _ _ _ _ (by omega),
      advLookup_cons_col_ne _ _ _ _ _ _ (by omega), advLookup_cons_self]
  · rw [advLookup_cons_col_ne _ _ _ _ _ _ (by omega), advLookup_cons_self]
  · rw [advLookup_cons_self]
    exact bind_bind_some_eq_vadd v0 v1

/-- C6: `assign_row` copies the cells `a` and `b` into advice columns 0
and 1 of the new region's row, recording one explicit copy constraint per
pair with the new cells taking the source values, and returns a cell in
advice column 2 whose value is `value(a) + value(b)`. -/
theorem assign_row_behaviour (F : Type) [Field F] [DecidableEq F] (st0 : SynthState F)
    (a b : AssignedCell F) (ha : a.col ∈ (theCS F).eqAdvice)
    (hb : b.col ∈ (theCS F).eqAdvice) :
    ∃ st1 cCell,
      FibChip.assignRow (theCfg F) (theCS F) st0 a b = .ok (st1, cCell) ∧
      st1.copies = ((b.col, b.row), (1, st0.nextRow)) ::
        ((a.col, a.row), (0, st0.nextRow)) :: st0.copies ∧
      advLookup st1.assigns 0 st0.nextRow = a.val ∧
      advLookup st1.assigns 1 st0.nextRow = b.val ∧
      cCell.col = 2 ∧ cCell.row = st0.nextRow ∧ cCell.val = vadd a.val b.val ∧
      st1.instBinds = st0.instBinds := by
  refine ⟨_, _, assignRow_eq st0 a b ha hb, rfl, ?_, ?_, rfl, rfl, ?_, rfl⟩
  · rw [advLookup_cons_col_ne _ _ _ _ _ _ (by omega),
      advLookup_cons_col_ne _ _ _ _ _ _ (by omega), advLookup_cons_self]
  · rw [advLookup_cons_col_ne _ _ _ _ _ _ (by omega), advLookup_cons_self]
  · exact bind_map_eq_vadd a.val b.val

/-- C6 witness: `assign_row` on two concrete cells over `ZMod 101`. -/
theorem assign_row_behaviour_witness :
    ∃ st1 cCell,
      FibChip.assignRow (theCfg (ZMod 101)) (theCS (ZMod 101)) {} wCellA wCellB =
        .ok (st1, cCell) ∧
      st1.copies = ((wCellB.col, wCellB.row), (1, ({} : SynthState (ZMod 101)).nextRow)) ::
        ((wCellA.col, wCellA.row), (0, ({} : SynthState (ZMod 101)).nextRow)) ::
        ({} : SynthState (ZMod 101)).copies ∧
      advLookup st1.assigns 0 ({} : SynthState (ZMod 101)).nextRow = wCellA.val ∧
      advLookup st1.assigns 1 ({} : SynthState (ZMod 101)).nextRow = wCellB.val ∧
      cCell.col = 2 ∧ cCell.row = ({} : SynthState (ZMod 101)).nextRow ∧
      cCell.val = vadd wCellA.val wCellB.val ∧
      st1.instBinds = ({} : SynthState (ZMod 101)).instBinds :=
  assign_row_behaviour (ZMod 101) {} wCellA wCellB (by decide) (by decide)

/-- C7: whenever `synthesize` completes, the only instance-advice copy
constraints in the final state are the two recorded by `assign_first_row`;
in particular `expose_public` is never invoked, so the final `c` cell is
never bound to a public input. -/
theorem no_public_output_binding (F : Type) [Field F] [DecidableEq F] (N : ℕ)
    (inst : List (Option F)) (st : SynthState F) (cFinal : AssignedCell F)
    (h : mockRun N inst = .ok (st, cFinal)) :
    st.instBinds = [⟨0, 1, 1, 0⟩, ⟨0, 0, 0, 0⟩] := by
  rcases inst with _ | ⟨v0, _ | ⟨v1, rest⟩⟩
  · rw [mockRun_nil] at h
    exact Except.noConfusion h
  · rw [mockRun_single] at h
    exact Except.noConfusion h
  · by_cases hN : N = 0
    · subst hN
      rw [mockRun_zero] at h
      exact Except.noConfusion h
    · obtain ⟨st2, c2, heq, hbinds⟩ := mockRun_ok_general N (by omega) v0 v1 rest
      rw [heq] at h
      injection h with h
      injection h with h1 h2
      subst h1
      exact hbinds

/-- C7 witness: the run at `fib_size = 2` over `ZMod 101`. -/
theorem no_public_output_binding_witness :
    witState.instBinds = [⟨0, 1, 1, 0⟩, ⟨0, 0, 0, 0⟩] :=
  no_public_output_binding (ZMod 101) 2 [some 1, some 1] witState witCell (by decide)

/-- C8: `configure` equality-enables all three advice columns and the
instance column, and no mock run on a two-entry public input column can
ever fail with the equality-not-enabled error. -/
theorem equality_enabled_unreachable_error (F : Type) [Field F] [DecidableEq F] :
    ((0 : ℕ) ∈ (theCS F).eqAdvice ∧ (1 : ℕ) ∈ (theCS F).eqAdvice ∧
      (2 : ℕ) ∈ (theCS F).eqAdvice ∧ (0 : ℕ) ∈ (theCS F).eqInstance) ∧
    ∀ (N : ℕ) (v0 v1 : Option F) (rest : List (Option F)),
      mockRun N (v0 :: v1 :: rest) ≠ .error .eqNotEnabled := by
  refine ⟨⟨by rw [theCS_eq]; simp, by rw [theCS_eq]; simp, by rw [theCS_eq]; simp,
    by rw [theCS_eq]; simp⟩, ?_⟩
  intro N v0 v1 rest hcontra
  by_cases hN : N = 0
  · subst hN
    rw [mockRun_zero] at hcontra
    injection hcontra with h'
    exact SynthError.noConfusion h'
  · obtain ⟨st2, c2, heq, -⟩ := mockRun_ok_general N (by omega) v0 v1 rest
    rw [heq] at hcontra
    exact Except.noConfusion hcontra

/-- C8 witness: the statement applied at `fib_size = 2` over `ZMod 101`. -/
theorem equality_enabled_unreachable_error_witness :
    mockRun 2 [some (1 : ZMod 101), some 1] ≠ .error .eqNotEnabled :=
  (equality_enabled_unreachable_error (ZMod 101)).2 2 (some 1) (some 1) []

/-- C9: two runs of synthesis followed by verification on the same
`fib_size` and public inputs produce identical witness grids, identical
copy-constraint sets, identical final cells and identical violation
lists. -/
theorem deterministic_verification (F : Type) [Field F] [DecidableEq F] (N numRows : ℕ)
    (inst : List (Option F)) (st1 st2 : SynthState F) (c1 c2 : AssignedCell F)
    (h1 : mockRun N inst = .ok (st1, c1)) (h2 : mockRun N inst = .ok (st2, c2)) :
    st1.assigns = st2.assigns ∧ st1.copies = st2.copies ∧ c1 = c2 ∧
      allViolations (theCS F) inst st1 numRows = allViolations (theCS F) inst st2 numRows := by
  rw [h1] at h2
  injection h2 with h
  injection h with ha hb
  subst ha
  subst hb
  exact ⟨rfl, rfl, rfl, rfl⟩

/-- C9 witness: two runs at `fib_size = 2` over `ZMod 101`. -/
theorem deterministic_verification_witness :
    witState.assigns = witState.assigns ∧ witState.copies = witState.copies ∧
      witCell = witCell ∧
      allViolations (theCS (ZMod 101)) [some 1, some 1] witState 4 =
        allViolations (theCS (ZMod 101)) [some 1, some 1] witState 4 :=
  deterministic_verification (ZMod 101) 2 4 [some 1, some 1] witState witState witCell witCell
    (by decide) (by decide)

/-- C10: every region laid out by a completed run with known public inputs
enables the selector at its row — regions occupy one row each, so the laid
out rows are exactly those below the row cursor, and each of them is
selector-enabled — and at every selector-enabled position the values are
known and column 2 holds the sum of columns 0 and 1, so `a + b - c`
vanishes there by construction. -/
theorem region_sum_invariant (F : Type) [Field F] [DecidableEq F] (N : ℕ) (x y : F)
    (st : SynthState F) (cFinal : AssignedCell F)
    (h : mockRun N [some x, some y] = .ok (st, cFinal)) :
    (∀ r, r < st.nextRow → (0, r) ∈ st.selRows) ∧
    ∀ p ∈ st.selRows, p.1 = 0 ∧ ∃ a b, advLookup st.assigns 0 p.2 = some a ∧
      advLookup st.assigns 1 p.2 = some b ∧ advLookup st.assigns 2 p.2 = some (a + b) := by
  by_cases hN : N = 0
  · subst hN
    rw [mockRun_zero] at h
    exact Except.noConfusion h
  · obtain ⟨st0, b0, c0, heq, hinv⟩ := mockRun_ok_inv x y N (by omega)
    rw [heq] at h
    injection h with h
    injection h with ha hb
    subst ha
    constructor
    · intro r hr
      have hrle : r ≤ N - 3 := by
        have := hinv.nextRow_eq
        omega
      exact (hinv.selChar (0, r)).mpr ⟨rfl, hrle⟩
    · intro p hp
      obtain ⟨hp1, hp2⟩ := (hinv.selChar p).mp hp
      obtain ⟨e0, e1, e2⟩ := hinv.rowsLe p.2 hp2
      refine ⟨hp1, fibSeq x y p.2, fibSeq x y (p.2 + 1), e0, e1, ?_⟩
      rw [e2]
      rfl

/-- C10 witness: the single region of the run at `fib_size = 2` over
`ZMod 101`: its one row is selector-enabled, and the enabled position
`(0, 0)` holds summing values. -/
theorem region_sum_invariant_witness :
    ((0 : ℕ), (0 : ℕ)) ∈ witState.selRows ∧
    (((0 : ℕ), (0 : ℕ)).1 = 0 ∧ ∃ a b,
      advLookup witState.assigns 0 ((0 : ℕ), (0 : ℕ)).2 = some a ∧
      advLookup witState.assigns 1 ((0 : ℕ), (0 : ℕ)).2 = some b ∧
      advLookup witState.assigns 2 ((0 : ℕ), (0 : ℕ)).2 = some (a + b)) :=
  ⟨(region_sum_invariant (ZMod 101) 2 1 1 witState witCell (by decide)).1 0 (by decide),
   (region_sum_invariant (ZMod 101) 2 1 1 witState witCell (by decide)).2 (0, 0) (by decide)⟩

end FibCircuit
